import Mathlib

/-!
Shallow embedding of collectd's `src/openafs.c` plugin (the shared-memory
counter registry and sampler) together with theorems checking the
specification's claims against it.

Modelling conventions:
* C pointers are values of `CPtr`: the null pointer, the `MAP_FAILED`
  sentinel returned by a failed `mmap` (which is distinct from null), or an
  identified heap block / mapping.  A pointer field is paired with the
  semantic content it points to (string, label slots, counter view), since
  the embedding has no byte-level heap.
* The OS and the daemon's allocator are an explicit environment: `shm_open`
  and `mmap` outcomes are given by an `Env`; `calloc`/`strdup` are modelled
  as always succeeding (allocation failure is not the subject of any claim).
* Resource-affecting calls (`shm_open`, `close`, `mmap`, `munmap`,
  allocations, `free`) append events to a trace in `St`, from which live
  (unreleased) resources are computed.
* Machine integers: counters are unsigned 32-bit values in the segment; the
  embedding carries them as `Nat` (a mapped view is a `List Nat`).  File
  descriptors are `Int` (C `int`), `-1` on failure.
-/

namespace Openafs

/-- A C pointer value as far as this plugin can observe it: null, the
`MAP_FAILED` sentinel (`(void *)-1`, distinct from null), a heap block with
an allocation identity, or a mapped region with a mapping identity. -/
inductive CPtr where
  | null
  | mapFailed
  | blk (id : Nat)
  | mapd (id : Nat)
deriving DecidableEq, Repr

/-- The member of collectd's `value_t` union that the plugin stores into:
the code writes `(value_t){.gauge = counter}`. -/
inductive MetricValue where
  | gauge (v : Nat)
deriving DecidableEq, Repr

/-- One dispatched sample, as far as this plugin fills it in: the plugin
tag, the constructed type (metric) name, and the value. -/
structure Sample where
  plugin : String
  type : String
  value : MetricValue
deriving DecidableEq, Repr

instance : Inhabited Sample := ⟨⟨"", "", MetricValue.gauge 0⟩⟩

/-- Modelled from the spec: the daemon's generic configuration tree
(`oconfig_item_t`, declared in the daemon's headers, not under `src/`): an
item has a key, a list of values and a list of children.  Only string
values are modelled, which is all the interface the core consumes. -/
inductive OConfigItem where
  | mk (key : String) (values : List String) (children : List OConfigItem)

def OConfigItem.key : OConfigItem → String
  | ⟨k, _, _⟩ => k

def OConfigItem.values : OConfigItem → List String
  | ⟨_, v, _⟩ => v

def OConfigItem.children : OConfigItem → List OConfigItem
  | ⟨_, _, c⟩ => c

instance : Inhabited OConfigItem := ⟨⟨"", [], []⟩⟩

/-- Resource events emitted by the embedded code. -/
inductive Ev where
  | shmOpenCall (name : String) (res : Option Nat)
  | closeFd (fd : Int)
  | mmapCall (fd : Int) (len : Nat) (res : Option Nat)
  | munmapCall (p : CPtr) (len : Nat)
  | allocBlk (id : Nat)
  | freeBlk (p : CPtr)
deriving DecidableEq, Repr

/-- Execution state: a fresh-identity counter and the resource trace. -/
structure St where
  nextId : Nat := 1
  trace : List Ev := []
deriving DecidableEq, Repr

/-- The OS environment: the outcome of `shm_open` for each segment name
(the file descriptor, if the segment exists and is readable) and the
outcome of `mmap` for a descriptor and a byte length (the mapped counter
words, if mapping succeeds). -/
structure Env where
  shmOpenRes : String → Option Nat
  mmapRes : Int → Nat → Option (List Nat)

/-- The embedding of `struct openafs_class_s`.  Pointer fields keep both
the C pointer value and the content behind it; a `calloc`-zeroed entry is
the default value (all pointers null, `fd = 0`, `n_counters = 0`). -/
structure OpenafsClass where
  fd : Int := 0
  classPtr : CPtr := CPtr.null
  className : String := ""
  labelsArr : CPtr := CPtr.null
  labelVals : List (CPtr × Option String) := []
  countersPtr : CPtr := CPtr.null
  countersView : List Nat := []
  n_counters : Nat := 0
deriving DecidableEq, Repr

instance : Inhabited OpenafsClass := ⟨{}⟩

/-- The plugin's globals: `openafs_class_lst` (its pointer identity and the
array content) and `openafs_class_lst_len`. -/
structure Globals where
  lstPtr : CPtr := CPtr.null
  lst : List OpenafsClass := []
  lstLen : Nat := 0
deriving DecidableEq, Repr

def emit (e : Ev) (st : St) : St :=
  { st with trace := st.trace ++ [e] }

/-- POSIX `shm_open(name, O_RDONLY, 0666)`: returns the descriptor chosen
by the environment, or `-1` on failure. -/
def shm_open (env : Env) (name : String) (st : St) : Int × St :=
  match env.shmOpenRes name with
  | some fd => (Int.ofNat fd, emit (Ev.shmOpenCall name (some fd)) st)
  | none => (-1, emit (Ev.shmOpenCall name none) st)

/-- POSIX `mmap(0, len, PROT_READ, MAP_SHARED, fd, 0)`: on success a fresh
mapping and the mapped counter words; on failure the `MAP_FAILED`
sentinel (not the null pointer). -/
def mmap (env : Env) (fd : Int) (len : Nat) (st : St) : CPtr × List Nat × St :=
  match env.mmapRes fd len with
  | some view =>
    (CPtr.mapd st.nextId, view,
      { nextId := st.nextId + 1, trace := st.trace ++ [Ev.mmapCall fd len (some st.nextId)] })
  | none => (CPtr.mapFailed, [], emit (Ev.mmapCall fd len none) st)

/-- A successful heap allocation (`calloc`/`strdup`) of a fresh block. -/
def callocBlk (st : St) : CPtr × St :=
  (CPtr.blk st.nextId,
    { nextId := st.nextId + 1, trace := st.trace ++ [Ev.allocBlk st.nextId] })

/-- Modelled from the spec: collectd's `cf_util_get_string` helper
(declared in the daemon's headers, not under `src/`): it succeeds iff the
item carries exactly one string value, and then stores a freshly allocated
copy (`strdup`) of that string into the destination; on failure it returns
a nonzero status and leaves the destination untouched. -/
def cf_util_get_string (it : OConfigItem) (st : St) : Option (CPtr × String) × St :=
  match it.values with
  | [s] =>
    let r := callocBlk st
    (some (r.1, s), r.2)
  | _ => (none, st)

/-- ASCII lower-casing of one character, as C `tolower` in the default
locale. -/
def lowerAscii (c : Char) : Char :=
  if 'A' ≤ c ∧ c ≤ 'Z' then Char.ofNat (c.toNat + 32) else c

/-- C `strcasecmp(a, b) == 0` in the default locale: ASCII
case-insensitive equality. -/
def strcaseEq (a b : String) : Bool :=
  decide (a.data.map lowerAscii = b.data.map lowerAscii)

/-- The effect of `snprintf` into a buffer of `n` bytes: at most `n - 1`
characters are kept. -/
def snprintfTrunc (n : Nat) (s : String) : String :=
  ⟨s.data.take (n - 1)⟩

/-- How glibc's `printf` renders a string argument: a null `char *` is
printed as `(null)` (the dereference is undefined behaviour in C; the
model fixes the common glibc rendering). -/
def labelCStr : Option String → String
  | some s => s
  | none => "(null)"

/-- Embeds `_openafs_release_labels`: if the label array is null, return;
otherwise free each of the first `n_counters` label pointers.  The label
array itself is not freed here. -/
def _openafs_release_labels (c : OpenafsClass) (st : St) : St :=
  if c.labelsArr = CPtr.null then st
  else ((c.labelVals.take c.n_counters).map Prod.fst).foldl (fun st p => emit (Ev.freeBlk p) st) st

/-- The body of the loop in `openafs_destroy` for one class entry:
`munmap(counters, n_counters * sizeof(unsigned int))`, `close(fd)`,
`free(class)`, `_openafs_release_labels`. -/
def _openafs_destroy_class (c : OpenafsClass) (st : St) : St :=
  let st := emit (Ev.munmapCall c.countersPtr (c.n_counters * 4)) st
  let st := emit (Ev.closeFd c.fd) st
  let st := emit (Ev.freeBlk c.classPtr) st
  _openafs_release_labels c st

/-- Embeds `openafs_destroy`: walk `openafs_class_lst_len` entries of the
class list releasing each, then free the list itself; always returns 0.
The globals are not modified (the C code leaves the dangling pointer and
the stale length in place). -/
def openafs_destroy (g : Globals) (st : St) : Int × St :=
  let st := (g.lst.take g.lstLen).foldl (fun st c => _openafs_destroy_class c st) st
  (0, emit (Ev.freeBlk g.lstPtr) st)

/-- The label-filling loop at the end of `_openafs_add_stats`: for each
child, in order, while the status is zero: if the key is `Counter`
(case-insensitively), extract the label string into `labels[i]`. -/
def _openafs_fill_labels (children : List OConfigItem) (i : Nat) (c : OpenafsClass) (st : St) :
    Int × OpenafsClass × St :=
  match children with
  | [] => (0, c, st)
  | ch :: rest =>
    if strcaseEq "Counter" ch.key then
      match cf_util_get_string ch st with
      | (some ps, st) =>
        _openafs_fill_labels rest (i + 1)
          { c with labelVals := c.labelVals.set i (ps.1, some ps.2) } st
      | (none, st) => (-1, c, st)
    else _openafs_fill_labels rest (i + 1) c st

/-- Embeds `_openafs_add_stats`: check the name length against the
256-byte buffer, build the segment name, `shm_open` it read-only, take
`n_counters` from the number of children, `mmap` the counter view,
`calloc` the label array, test both pointers against null, then fill the
labels. -/
def _openafs_add_stats (env : Env) (ci : OConfigItem) (c : OpenafsClass) (st : St) :
    Int × OpenafsClass × St :=
  if c.className.length + 2 > 256 then (-1, c, st)
  else
    let buffer := snprintfTrunc 256 ("/" ++ c.className)
    let r := shm_open env buffer st
    let c := { c with fd := r.1 }
    let st := r.2
    if c.fd < 0 then (-1, c, st)
    else
      let c := { c with n_counters := ci.children.length }
      let m := mmap env c.fd (c.n_counters * 4) st
      let c := { c with countersPtr := m.1, countersView := m.2.1 }
      let st := m.2.2
      let a := callocBlk st
      let c := { c with labelsArr := a.1,
                        labelVals := List.replicate c.n_counters (CPtr.null, none) }
      let st := a.2
      if c.countersPtr = CPtr.null ∨ c.labelsArr = CPtr.null then (-1, c, st)
      else _openafs_fill_labels ci.children 0 c st

/-- Embeds `_openafs_process_class`: if the item's key is `Class`
(case-insensitively), extract the class name and add its stats; any other
key is skipped with status 0. -/
def _openafs_process_class (env : Env) (ci : OConfigItem) (c : OpenafsClass) (st : St) :
    Int × OpenafsClass × St :=
  if strcaseEq "Class" ci.key then
    match cf_util_get_string ci st with
    | (some ps, st) => _openafs_add_stats env ci { c with classPtr := ps.1, className := ps.2 } st
    | (none, st) => (-1, c, st)
  else (0, c, st)

/-- The loop of `openafs_config`: process each child into its
`calloc`-zeroed slot while the status is zero; entries after a failure
keep their zeroed contents. -/
def _openafs_config_loop (env : Env) (children : List OConfigItem) (st : St) :
    Int × List OpenafsClass × St :=
  match children with
  | [] => (0, [], st)
  | ci :: rest =>
    let r := _openafs_process_class env ci {} st
    if r.1 = 0 then
      let r2 := _openafs_config_loop env rest r.2.2
      (r2.1, r.2.1 :: r2.2.1, r2.2.2)
    else (r.1, r.2.1 :: List.replicate rest.length {}, r.2.2)

/-- Embeds `openafs_config`: allocate the class list (one zeroed entry per
top-level child), record its length, process the children in order, and on
a nonzero status call `openafs_destroy` before propagating the status. -/
def openafs_config (env : Env) (ci : OConfigItem) (st : St) : Int × Globals × St :=
  let a := callocBlk st
  let r := _openafs_config_loop env ci.children a.2
  let g : Globals := { lstPtr := a.1, lst := r.2.1, lstLen := ci.children.length }
  if r.1 ≠ 0 then (r.1, g, (openafs_destroy g r.2.2).2)
  else (r.1, g, r.2.2)

/-- Embeds `_openafs_export_class`: for each slot `i` below `n_counters`,
build the type name `"<class>_<labels[i]>"` in the 256-byte buffer, read
`counters[i]` (a relaxed atomic load of one word) and dispatch one value
list with plugin `openafs` and the counter as a gauge.  The per-slot
samples are returned in emission order. -/
def _openafs_export_class (c : OpenafsClass) : List Sample :=
  (List.range c.n_counters).map fun i =>
    { plugin := "openafs",
      type := snprintfTrunc 256
        (c.className ++ "_" ++ labelCStr (c.labelVals.getD i (CPtr.null, none)).2),
      value := MetricValue.gauge (c.countersView.getD i 0) }

/-- Embeds `openafs_read`: export every class in the list, in order, and
return 0. -/
def openafs_read (g : Globals) : List Sample × Int :=
  (((g.lst.take g.lstLen).map _openafs_export_class).flatten, 0)

/-- Heap blocks allocated in the trace and not (yet) freed, in allocation
order.  Freeing the null pointer is a no-op. -/
def liveBlksStep (acc : List Nat) (e : Ev) : List Nat :=
  match e with
  | Ev.allocBlk id => acc ++ [id]
  | Ev.freeBlk (CPtr.blk id) => acc.erase id
  | _ => acc

def liveBlks (tr : List Ev) : List Nat :=
  tr.foldl liveBlksStep []

/-- File descriptors opened in the trace and not (yet) closed. -/
def liveFdsStep (acc : List Nat) (e : Ev) : List Nat :=
  match e with
  | Ev.shmOpenCall _ (some fd) => acc ++ [fd]
  | Ev.closeFd fd => if fd < 0 then acc else acc.erase fd.toNat
  | _ => acc

def liveFds (tr : List Ev) : List Nat :=
  tr.foldl liveFdsStep []

/-- Mappings established in the trace and not (yet) unmapped.  Unmapping
null or `MAP_FAILED` fails with `EINVAL` and releases nothing. -/
def liveMapsStep (acc : List Nat) (e : Ev) : List Nat :=
  match e with
  | Ev.mmapCall _ _ (some id) => acc ++ [id]
  | Ev.munmapCall (CPtr.mapd id) _ => acc.erase id
  | _ => acc

def liveMaps (tr : List Ev) : List Nat :=
  tr.foldl liveMapsStep []

/-- Environment for the C1 scenario: segment `/a` exists (descriptor 3)
and maps one counter word `[7]`; segment `/b` does not exist. -/
def envC1 : Env :=
  { shmOpenRes := fun n => if n = "/a" then some 3 else none,
    mmapRes := fun fd len => if fd = 3 ∧ len = 4 then some [7] else none }

/-- Configuration for the C1 scenario: a fully constructible class `a`
followed by a class `b` whose segment fails to open. -/
def cfgC1 : OConfigItem :=
  ⟨"openafs", [], [⟨"Class", ["a"], [⟨"Counter", ["x"], []⟩]⟩, ⟨"Class", ["b"], []⟩]⟩

/-- Environment for the C4 scenario: segment `/m` opens (descriptor 4) but
every `mmap` fails, e.g. because the segment is smaller than requested. -/
def envC4 : Env :=
  { shmOpenRes := fun n => if n = "/m" then some 4 else none,
    mmapRes := fun _ _ => none }

/-- Configuration for the C4 scenario: one class with one counter. -/
def cfgC4 : OConfigItem :=
  ⟨"openafs", [], [⟨"Class", ["m"], [⟨"Counter", ["z"], []⟩]⟩]⟩

/-- Environment for the C5 scenario: segment `/p` exists (descriptor 5)
and maps one counter word `[9]`; segment `/q` does not exist. -/
def envC5 : Env :=
  { shmOpenRes := fun n => if n = "/p" then some 5 else none,
    mmapRes := fun fd len => if fd = 5 ∧ len = 4 then some [9] else none }

/-- Configuration for the C5 scenario: class `p` constructs fully, then
class `q` fails to open, so `openafs_config` itself calls
`openafs_destroy` and returns an error; at shutdown the daemon calls
`openafs_destroy` once more. -/
def cfgC5 : OConfigItem :=
  ⟨"openafs", [], [⟨"Class", ["p"], [⟨"Counter", ["u"], []⟩]⟩, ⟨"Class", ["q"], []⟩]⟩

/-- State reached after the failed configuration pass of the C5 scenario
(this run already invoked `openafs_destroy` internally). -/
def stC5 : Int × Globals × St := openafs_config envC5 cfgC5 {}

/-- A 300-character class name, longer than the segment-name buffer
admits. -/
def longNameC7 : String := ⟨List.replicate 300 'a'⟩

/-- The label the i-th child contributes according to the code: the
child's single string value if its key is `Counter` (case-insensitively),
and no label otherwise (the slot keeps its `calloc`-zeroed null). -/
def labelOfChild (ch : OConfigItem) : Option String :=
  if strcaseEq "Counter" ch.key then some (ch.values.getD 0 "") else none

/-- The effect of the label loop on the label-slot contents, expressed on
the slot strings alone: starting at index `i`, each child with key
`Counter` overwrites slot `i` with its value; every child advances the
index. -/
def specApplyLabels : List (Option String) → Nat → List OConfigItem → List (Option String)
  | l, _, [] => l
  | l, i, ch :: rest =>
    specApplyLabels
      (if strcaseEq "Counter" ch.key then l.set i (some (ch.values.getD 0 "")) else l)
      (i + 1) rest

/-- A child the label loop accepts without error: either it is not keyed
`Counter`, or it carries exactly one string value. -/
def okCounterB (ch : OConfigItem) : Bool :=
  !strcaseEq "Counter" ch.key || ch.values.length == 1

/-- Environment for the C3 counterexample: segment `/k` opens (descriptor
3) and maps two counter words. -/
def envC3x : Env :=
  { shmOpenRes := fun n => if n = "/k" then some 3 else none,
    mmapRes := fun fd len => if fd = 3 ∧ len = 8 then some [1, 2] else none }

/-- Class block for the C3 counterexample: one child keyed `Foo` (not a
counter) followed by one child keyed `Counter` labelled `cnt`. -/
def ciC3x : OConfigItem :=
  ⟨"Class", ["k"], [⟨"Foo", ["x"], []⟩, ⟨"Counter", ["cnt"], []⟩]⟩

/-- The class built from `ciC3x`. -/
def addC3x : Int × OpenafsClass × St :=
  _openafs_add_stats envC3x ciC3x { classPtr := CPtr.blk 9, className := "k" } {}

/-- The counter view the environment supplies for a Class block: open the
segment named after the block's single value, then map
`children_num * sizeof(unsigned int)` bytes. -/
def specClassView (env : Env) (ci : OConfigItem) : List Nat :=
  match env.shmOpenRes ("/" ++ ci.values.getD 0 "") with
  | some fd => (env.mmapRes (Int.ofNat fd) (ci.children.length * 4)).getD []
  | none => []

/-- The samples the specification predicts for one Class block: one sample
per slot, in slot order, tagged `openafs`, named by joining the class name
and the slot's label with an underscore (truncated to the 255 characters
the export buffer holds), carrying the slot's counter as a gauge. -/
def specClassSamples (env : Env) (ci : OConfigItem) : List Sample :=
  (List.range ci.children.length).map fun i =>
    { plugin := "openafs",
      type := snprintfTrunc 256
        (ci.values.getD 0 "" ++ "_" ++ (ci.children.getD i default).values.getD 0 ""),
      value := MetricValue.gauge ((specClassView env ci).getD i 0) }

/-- A well-formed Counter child: keyed `Counter` (case-insensitively) with
exactly one string value. -/
def goodCounterB (ch : OConfigItem) : Bool :=
  strcaseEq "Counter" ch.key && ch.values.length == 1

/-- The environment cooperates for class name `s` with `n` slots: the
segment opens and the requested bytes map to a view of `n` counter
words. -/
def envMapsB (env : Env) (s : String) (n : Nat) : Bool :=
  match env.shmOpenRes ("/" ++ s) with
  | some fd =>
    match env.mmapRes (Int.ofNat fd) (n * 4) with
    | some view => view.length == n
    | none => false
  | none => false

/-- A Class block that constructs cleanly: keyed `Class`, a single string
value of at most 254 characters whose segment opens and maps, and every
child a well-formed Counter child. -/
def goodClassB (env : Env) (ci : OConfigItem) : Bool :=
  strcaseEq "Class" ci.key &&
  (match ci.values with
   | [s] => decide (s.length ≤ 254) && envMapsB env s ci.children.length
   | _ => false) &&
  ci.children.all goodCounterB

/-- A 300-character counter label. -/
def labelLongC2 : String := ⟨List.replicate 300 'b'⟩

/-- Environment for the C2 counterexample: segment `/c` opens (descriptor
3) and maps one counter word `[11]`. -/
def envC2x : Env :=
  { shmOpenRes := fun n => if n = "/c" then some 3 else none,
    mmapRes := fun fd len => if fd = 3 ∧ len = 4 then some [11] else none }

/-- Configuration for the C2 counterexample: class `c` with a single
counter whose label has 300 characters. -/
def cfgC2x : OConfigItem :=
  ⟨"openafs", [], [⟨"Class", ["c"], [⟨"Counter", [labelLongC2], []⟩]⟩]⟩

/-- The sampling pass of the C2 counterexample registry. -/
def readC2x : List Sample × Int :=
  openafs_read (openafs_config envC2x cfgC2x {}).2.1

/-- Environment for the C2 witness: segment `/afs` (descriptor 7) maps two
counter words `[42, 7]`. -/
def envC2w : Env :=
  { shmOpenRes := fun n => if n = "/afs" then some 7 else none,
    mmapRes := fun fd len => if fd = 7 ∧ len = 8 then some [42, 7] else none }

/-- Configuration for the C2 witness: class `afs` with counters `hits` and
`misses`. -/
def cfgC2w : OConfigItem :=
  ⟨"openafs", [], [⟨"Class", ["afs"],
    [⟨"Counter", ["hits"], []⟩, ⟨"Counter", ["misses"], []⟩]⟩]⟩

/-- Environment for the C8 counterexample: segment `/c8` opens (descriptor
3) and maps one counter word `[5]`. -/
def envC8x : Env :=
  { shmOpenRes := fun n => if n = "/c8" then some 3 else none,
    mmapRes := fun fd len => if fd = 3 ∧ len = 4 then some [5] else none }

/-- Configuration for the C8 counterexample: a Class block with zero
Counter children but one child keyed `Foo`. -/
def cfgC8x : OConfigItem :=
  ⟨"openafs", [], [⟨"Class", ["c8"], [⟨"Foo", ["x"], []⟩]⟩]⟩

/-- Environment for the C8 witness: segment `/e` opens (descriptor 6) and
every `mmap` fails — as the real `mmap` does on a zero-length request. -/
def envC8w : Env :=
  { shmOpenRes := fun n => if n = "/e" then some 6 else none,
    mmapRes := fun _ _ => none }

/-- Rename one item's own key, keeping values and children. -/
def renameKey (f : String → String) : OConfigItem → OConfigItem
  | ⟨k, v, cs⟩ => ⟨f k, v, cs⟩

/-- Rename a Class candidate's key and the keys of its direct children
(the Counter candidates). -/
def renameClassItem (f : String → String) : OConfigItem → OConfigItem
  | ⟨k, v, cs⟩ => ⟨f k, v, cs.map (renameKey f)⟩

/-- Rename every key the plugin ever inspects: the root's key, each
top-level child's key (the `Class` candidates) and each grandchild's key
(the `Counter` candidates). -/
def renameKeys2 (f : String → String) : OConfigItem → OConfigItem
  | ⟨k, v, children⟩ => ⟨f k, v, children.map (renameClassItem f)⟩

/-- The capitalization change exercised by the C10 witness: `Class`
becomes `cLaSs` and `Counter` becomes `COUNTER`. -/
def fW10 : String → String :=
  fun k => if k = "Class" then "cLaSs" else if k = "Counter" then "COUNTER" else k

/-- Environment for the C10 witness: segment `/w` (descriptor 2) maps one
counter word `[3]`. -/
def envC10w : Env :=
  { shmOpenRes := fun n => if n = "/w" then some 2 else none,
    mmapRes := fun fd len => if fd = 2 ∧ len = 4 then some [3] else none }

/-- Configuration for the C10 witness. -/
def cfgC10w : OConfigItem :=
  ⟨"openafs", [], [⟨"Class", ["w"], [⟨"Counter", ["x"], []⟩]⟩]⟩

/-- C1: construction is claimed to be all-or-nothing, releasing every
resource on failure.  In the scenario where class `a` is fully constructed
and class `b` then fails to open its segment, `openafs_config` does return
an error, and the rollback closes every descriptor, unmaps every view and
frees the class names and label strings — but the label *array* of class
`a` (heap block 4, the `calloc` in `_openafs_add_stats`) is never freed:
neither `openafs_destroy` nor `_openafs_release_labels` frees
`a_class->labels` itself, so one allocated block survives the rollback. -/
theorem C1_rollback_leaks_label_array :
    (openafs_config envC1 cfgC1 {}).1 = -1 ∧
    liveFds (openafs_config envC1 cfgC1 {}).2.2.trace = [] ∧
    liveMaps (openafs_config envC1 cfgC1 {}).2.2.trace = [] ∧
    liveBlks (openafs_config envC1 cfgC1 {}).2.2.trace = [4] := by decide

/-- C4: the claim says a failed mapping is detected and construction
returns an error.  In the code, `mmap` returns `MAP_FAILED` (not the null
pointer) on failure, while the check in `_openafs_add_stats` tests
`!a_class->counters`, i.e. compares against null — so a mapping failure
passes the check and `openafs_config` returns 0 (success) with the class
left holding the invalid `MAP_FAILED` counter view. -/
theorem C4_map_failure_undetected :
    (openafs_config envC4 cfgC4 {}).1 = 0 ∧
    ((openafs_config envC4 cfgC4 {}).2.1.lst.getD 0 {}).countersPtr = CPtr.mapFailed := by decide

/-- C5: the claim says `Destroy` releases exactly the acquired resources
and is a no-op on an already-failed/already-destroyed registry.  In the
code, `openafs_destroy` neither resets `openafs_class_lst` /
`openafs_class_lst_len` nor frees the label arrays: after the failed
configuration pass (which already ran the destroy), the shutdown
invocation of `openafs_destroy` walks the same entries again — the class
name string of `p` (heap block 2) ends up freed twice, the second call is
anything but a no-op (it appends further release events), and the label
array (heap block 4) is never freed at all. -/
theorem C5_destroy_not_idempotent :
    ((openafs_destroy stC5.2.1 stC5.2.2).2.trace.count (Ev.freeBlk (CPtr.blk 2)) = 2) ∧
    (openafs_destroy stC5.2.1 stC5.2.2).2.trace ≠ stC5.2.2.trace ∧
    Ev.freeBlk (CPtr.blk 4) ∉ (openafs_destroy stC5.2.1 stC5.2.2).2.trace := by decide

/-- C6: the read callback returns 0 to the daemon unconditionally: for
every registry state, one sampling pass reports success regardless of what
the per-class emission produced. -/
theorem C6_read_always_reports_success (g : Globals) : (openafs_read g).2 = 0 := rfl

theorem snprintfTrunc_eq_of_le (n : Nat) (s : String) (h : s.length ≤ n - 1) :
    snprintfTrunc n s = s := by
  unfold snprintfTrunc
  rw [List.take_of_length_le h]

theorem length_slash_append (s : String) : ("/" ++ s).length = 1 + s.length := by
  show ("/".data ++ s.data).length = 1 + s.data.length
  simp
  omega

theorem fill_trace_mono (children : List OConfigItem) :
    ∀ i c st, ∃ t, (_openafs_fill_labels children i c st).2.2.trace = st.trace ++ t := by
  induction children with
  | nil => exact fun i c st => ⟨[], by simp [_openafs_fill_labels]⟩
  | cons ch rest ih =>
    intro i c st
    by_cases hk : strcaseEq "Counter" ch.key
    · rcases hv : ch.values with _ | ⟨s, tl⟩
      · exact ⟨[], by simp [_openafs_fill_labels, hk, cf_util_get_string, hv]⟩
      · cases tl with
        | nil =>
          obtain ⟨t, ht⟩ := ih (i + 1)
            { c with labelVals := c.labelVals.set i (CPtr.blk st.nextId, some s) }
            { nextId := st.nextId + 1, trace := st.trace ++ [Ev.allocBlk st.nextId] }
          refine ⟨Ev.allocBlk st.nextId :: t, ?_⟩
          simp only [_openafs_fill_labels, hk, cf_util_get_string, hv, callocBlk, if_true]
          rw [ht]
          simp
        | cons s2 tl2 =>
          exact ⟨[], by simp [_openafs_fill_labels, hk, cf_util_get_string, hv]⟩
    · obtain ⟨t, ht⟩ := ih (i + 1) c st
      exact ⟨t, by simpa [_openafs_fill_labels, hk] using ht⟩

theorem fill_extends_cons (children : List OConfigItem) (i : Nat) (c : OpenafsClass) (st : St)
    (pre : List Ev) (e : Ev) (h : ∃ u, st.trace = pre ++ e :: u) :
    ∃ t, (_openafs_fill_labels children i c st).2.2.trace = pre ++ e :: t := by
  obtain ⟨u, hu⟩ := h
  obtain ⟨t, ht⟩ := fill_trace_mono children i c st
  exact ⟨u ++ t, by rw [ht, hu]; simp⟩

/-- C7: the class name must fit, with the leading `/` and the terminator,
in the 256-byte segment-name buffer.  A name longer than 254 characters
makes `_openafs_add_stats` return the configuration error `-1` untouched
— before any segment is opened (the state, hence the trace, is exactly the
input one).  For any name of at most 254 characters, the very next
resource action is the `shm_open` of the segment named `/` followed by the
class name. -/
theorem C7_segment_name_gate (env : Env) (ci : OConfigItem) (c : OpenafsClass) (st : St) :
    (c.className.length + 2 > 256 → _openafs_add_stats env ci c st = (-1, c, st)) ∧
    (c.className.length + 2 ≤ 256 →
      ∃ t, (_openafs_add_stats env ci c st).2.2.trace =
        st.trace ++ Ev.shmOpenCall ("/" ++ c.className)
          (env.shmOpenRes ("/" ++ c.className)) :: t) := by
  constructor
  · intro h
    unfold _openafs_add_stats
    rw [if_pos h]
  · intro h
    have hbuf : snprintfTrunc 256 ("/" ++ c.className) = "/" ++ c.className := by
      apply snprintfTrunc_eq_of_le
      have := length_slash_append c.className
      omega
    unfold _openafs_add_stats
    rw [if_neg (by omega)]
    simp only [hbuf]
    cases henv : env.shmOpenRes ("/" ++ c.className) with
    | none =>
      refine ⟨[], ?_⟩
      simp [shm_open, henv, emit]
    | some fd =>
      simp only [shm_open, henv, emit]
      rw [if_neg (by simp [Int.not_lt.mpr (Int.ofNat_nonneg fd)])]
      cases hm : env.mmapRes (Int.ofNat fd) (ci.children.length * 4) with
      | none =>
        simp only [mmap, hm, emit, callocBlk]
        rw [if_neg (by simp)]
        apply fill_extends_cons
        exact ⟨[Ev.mmapCall (Int.ofNat fd) (ci.children.length * 4) none,
          Ev.allocBlk st.nextId], by simp⟩
      | some view =>
        simp only [mmap, hm, emit, callocBlk]
        rw [if_neg (by simp)]
        apply fill_extends_cons
        exact ⟨[Ev.mmapCall (Int.ofNat fd) (ci.children.length * 4) (some st.nextId),
          Ev.allocBlk (st.nextId + 1)], by simp⟩

set_option maxRecDepth 4000 in
/-- Witness for C7 at concrete inputs: the 300-character name is rejected
with the state untouched, and the 1-character name `a` leads to an
attempted open of segment `/a`. -/
theorem C7_segment_name_gate_witness :
    (longNameC7.length + 2 > 256 ∧
      _openafs_add_stats envC1 ⟨"Class", ["x"], []⟩ { className := longNameC7 } {} =
        (-1, { className := longNameC7 }, {})) ∧
    ("a".length + 2 ≤ 256 ∧
      ∃ t, (_openafs_add_stats envC1 ⟨"Class", ["a"], []⟩ { className := "a" } {}).2.2.trace =
        ({} : St).trace ++ Ev.shmOpenCall ("/" ++ "a") (envC1.shmOpenRes ("/" ++ "a")) :: t) :=
  ⟨⟨by decide,
    (C7_segment_name_gate envC1 ⟨"Class", ["x"], []⟩ { className := longNameC7 } {}).1 (by decide)⟩,
   ⟨by decide,
    (C7_segment_name_gate envC1 ⟨"Class", ["a"], []⟩ { className := "a" } {}).2 (by decide)⟩⟩

theorem set_append_length {α : Type} (pre : List α) (x y : α) (suf : List α) :
    (pre ++ x :: suf).set pre.length y = pre ++ y :: suf := by
  induction pre with
  | nil => rfl
  | cons a l ih =>
    show a :: ((l ++ x :: suf).set l.length y) = a :: (l ++ y :: suf)
    rw [ih]

theorem specApply_replicate (children : List OConfigItem) :
    ∀ pre : List (Option String),
    specApplyLabels (pre ++ List.replicate children.length none) pre.length children =
      pre ++ children.map labelOfChild := by
  induction children with
  | nil => intro pre; simp [specApplyLabels]
  | cons ch rest ih =>
    intro pre
    rw [List.length_cons, List.replicate_succ]
    simp only [specApplyLabels, List.map_cons]
    by_cases hk : strcaseEq "Counter" ch.key
    · rw [if_pos hk, set_append_length]
      have h2 := ih (pre ++ [some (ch.values.getD 0 "")])
      simp only [List.length_append, List.length_singleton, List.append_assoc,
        List.singleton_append] at h2
      rw [h2]
      simp [labelOfChild, hk]
    · rw [if_neg hk]
      have h2 := ih (pre ++ [none])
      simp only [List.length_append, List.length_singleton, List.append_assoc,
        List.singleton_append] at h2
      rw [h2]
      simp [labelOfChild, hk]

theorem fill_fields (children : List OConfigItem) :
    ∀ i c st,
    (_openafs_fill_labels children i c st).2.1.className = c.className ∧
    (_openafs_fill_labels children i c st).2.1.n_counters = c.n_counters ∧
    (_openafs_fill_labels children i c st).2.1.countersView = c.countersView ∧
    (_openafs_fill_labels children i c st).2.1.countersPtr = c.countersPtr ∧
    (_openafs_fill_labels children i c st).2.1.labelsArr = c.labelsArr ∧
    (_openafs_fill_labels children i c st).2.1.fd = c.fd ∧
    (_openafs_fill_labels children i c st).2.1.classPtr = c.classPtr := by
  induction children with
  | nil => intro i c st; exact ⟨rfl, rfl, rfl, rfl, rfl, rfl, rfl⟩
  | cons ch rest ih =>
    intro i c st
    by_cases hk : strcaseEq "Counter" ch.key
    · rcases hv : ch.values with _ | ⟨s, tl⟩
      · simp [_openafs_fill_labels, hk, cf_util_get_string, hv]
      · cases tl with
        | nil =>
          simpa [_openafs_fill_labels, hk, cf_util_get_string, hv, callocBlk] using
            ih (i + 1) { c with labelVals := c.labelVals.set i (CPtr.blk st.nextId, some s) }
              { nextId := st.nextId + 1, trace := st.trace ++ [Ev.allocBlk st.nextId] }
        | cons s2 tl2 =>
          simp [_openafs_fill_labels, hk, cf_util_get_string, hv]
    · simpa [_openafs_fill_labels, hk] using ih (i + 1) c st

theorem fill_className (children : List OConfigItem) (i : Nat) (c : OpenafsClass) (st : St) :
    (_openafs_fill_labels children i c st).2.1.className = c.className :=
  (fill_fields children i c st).1

theorem fill_n_counters (children : List OConfigItem) (i : Nat) (c : OpenafsClass) (st : St) :
    (_openafs_fill_labels children i c st).2.1.n_counters = c.n_counters :=
  (fill_fields children i c st).2.1

theorem fill_countersView (children : List OConfigItem) (i : Nat) (c : OpenafsClass) (st : St) :
    (_openafs_fill_labels children i c st).2.1.countersView = c.countersView :=
  (fill_fields children i c st).2.2.1

theorem fill_countersPtr (children : List OConfigItem) (i : Nat) (c : OpenafsClass) (st : St) :
    (_openafs_fill_labels children i c st).2.1.countersPtr = c.countersPtr :=
  (fill_fields children i c st).2.2.2.1

theorem fill_fst (children : List OConfigItem) :
    ∀ i c st, children.all okCounterB = true →
    (_openafs_fill_labels children i c st).1 = 0 := by
  induction children with
  | nil => intro i c st _; rfl
  | cons ch rest ih =>
    intro i c st hall
    simp only [List.all_cons, Bool.and_eq_true] at hall
    obtain ⟨hch, hrest⟩ := hall
    by_cases hk : strcaseEq "Counter" ch.key
    · have hv1 : ch.values.length = 1 := by
        simp only [okCounterB, hk, Bool.not_true, Bool.false_or, beq_iff_eq] at hch
        exact hch
      rcases hv : ch.values with _ | ⟨s, tl⟩
      · rw [hv] at hv1; simp at hv1
      · cases tl with
        | nil =>
          simpa [_openafs_fill_labels, hk, cf_util_get_string, hv, callocBlk] using
            ih (i + 1) { c with labelVals := c.labelVals.set i (CPtr.blk st.nextId, some s) }
              { nextId := st.nextId + 1, trace := st.trace ++ [Ev.allocBlk st.nextId] } hrest
        | cons s2 tl2 => rw [hv] at hv1; simp at hv1
    · simpa [_openafs_fill_labels, hk] using ih (i + 1) c st hrest

theorem fill_labelVals_snd (children : List OConfigItem) :
    ∀ i c st, children.all okCounterB = true →
    (_openafs_fill_labels children i c st).2.1.labelVals.map Prod.snd =
      specApplyLabels (c.labelVals.map Prod.snd) i children := by
  induction children with
  | nil => intro i c st _; rfl
  | cons ch rest ih =>
    intro i c st hall
    simp only [List.all_cons, Bool.and_eq_true] at hall
    obtain ⟨hch, hrest⟩ := hall
    by_cases hk : strcaseEq "Counter" ch.key
    · have hv1 : ch.values.length = 1 := by
        simp only [okCounterB, hk, Bool.not_true, Bool.false_or, beq_iff_eq] at hch
        exact hch
      rcases hv : ch.values with _ | ⟨s, tl⟩
      · rw [hv] at hv1; simp at hv1
      · cases tl with
        | nil =>
          have hrec := ih (i + 1)
            { c with labelVals := c.labelVals.set i (CPtr.blk st.nextId, some s) }
            { nextId := st.nextId + 1, trace := st.trace ++ [Ev.allocBlk st.nextId] } hrest
          simp only [_openafs_fill_labels, hk, cf_util_get_string, hv, callocBlk, if_true]
          rw [hrec]
          show specApplyLabels ((c.labelVals.set i (CPtr.blk st.nextId, some s)).map Prod.snd)
            (i + 1) rest = specApplyLabels (c.labelVals.map Prod.snd) i (ch :: rest)
          rw [List.map_set]
          show _ = specApplyLabels
            (if strcaseEq "Counter" ch.key
              then (c.labelVals.map Prod.snd).set i (some (ch.values.getD 0 ""))
              else c.labelVals.map Prod.snd) (i + 1) rest
          rw [if_pos hk, hv]
          rfl
        | cons s2 tl2 => rw [hv] at hv1; simp at hv1
    · have hrec := ih (i + 1) c st hrest
      simp only [_openafs_fill_labels, hk, if_false, Bool.false_eq_true]
      rw [hrec]
      show _ = specApplyLabels
        (if strcaseEq "Counter" ch.key
          then (c.labelVals.map Prod.snd).set i (some (ch.values.getD 0 ""))
          else c.labelVals.map Prod.snd) (i + 1) rest
      rw [if_neg hk]

/-- C3 (amended): the claim said n_counters counts only the children keyed
`Counter` and that `labels[i]` is the label of the i-th Counter child.  In
the code `n_counters = a_ci->children_num` counts *all* children, and the
label loop writes the i-th child's label at index i (the child index, not
a running Counter index), leaving a null slot for every non-`Counter`
child.  This theorem proves the amended binding: for a Class block whose
name fits and whose segment opens, with every `Counter`-keyed child
carrying exactly one string value, `_openafs_add_stats` succeeds with
`n_counters` equal to the total number of children, and slot `j` holds the
label of child `j` when that child is keyed `Counter` (any
capitalization) and stays null otherwise. -/
theorem add_stats_spec (env : Env) (ci : OConfigItem) (p : CPtr) (s : String) (st : St)
    (hlen : s.length ≤ 254) (fd : Nat)
    (henv : env.shmOpenRes ("/" ++ s) = some fd)
    (hch : ci.children.all okCounterB = true) :
    (_openafs_add_stats env ci { classPtr := p, className := s } st).1 = 0 ∧
    (_openafs_add_stats env ci { classPtr := p, className := s } st).2.1.n_counters =
      ci.children.length ∧
    (_openafs_add_stats env ci { classPtr := p, className := s } st).2.1.labelVals.map Prod.snd =
      ci.children.map labelOfChild ∧
    (_openafs_add_stats env ci { classPtr := p, className := s } st).2.1.className = s ∧
    (_openafs_add_stats env ci { classPtr := p, className := s } st).2.1.countersView =
      (env.mmapRes (Int.ofNat fd) (ci.children.length * 4)).getD [] := by
  have hbuf : snprintfTrunc 256 ("/" ++ s) = "/" ++ s := by
    apply snprintfTrunc_eq_of_le
    have := length_slash_append s
    omega
  unfold _openafs_add_stats
  rw [if_neg (by omega : ¬ (s.length + 2 > 256))]
  simp only [hbuf, shm_open, henv, emit]
  rw [if_neg (show ¬ Int.ofNat fd < 0 from Int.not_lt.mpr (Int.ofNat_nonneg fd))]
  cases hm : env.mmapRes (Int.ofNat fd) (ci.children.length * 4) with
  | none =>
    simp only [mmap, hm, emit, callocBlk]
    rw [if_neg (by simp)]
    refine ⟨fill_fst ci.children _ _ _ hch, ?_, ?_, ?_, ?_⟩
    · rw [fill_n_counters]
    · rw [fill_labelVals_snd ci.children _ _ _ hch]
      simpa using specApply_replicate ci.children []
    · rw [fill_className]
    · rw [fill_countersView]
      rfl
  | some view =>
    simp only [mmap, hm, emit, callocBlk]
    rw [if_neg (by simp)]
    refine ⟨fill_fst ci.children _ _ _ hch, ?_, ?_, ?_, ?_⟩
    · rw [fill_n_counters]
    · rw [fill_labelVals_snd ci.children _ _ _ hch]
      simpa using specApply_replicate ci.children []
    · rw [fill_className]
    · rw [fill_countersView]
      rfl

/-- C3 (amended): the claim said n_counters counts only the children keyed
`Counter` and that `labels[i]` is the label of the i-th Counter child.  In
the code `n_counters = a_ci->children_num` counts *all* children, and the
label loop writes the i-th child's label at index i (the child index, not
a running Counter index), leaving a null slot for every non-`Counter`
child.  This theorem proves the amended binding: for a Class block whose
name fits and whose segment opens, with every `Counter`-keyed child
carrying exactly one string value, `_openafs_add_stats` succeeds with
`n_counters` equal to the total number of children, and slot `j` holds the
label of child `j` when that child is keyed `Counter` (any
capitalization) and stays null otherwise. -/
theorem C3_slot_binding (env : Env) (ci : OConfigItem) (p : CPtr) (s : String) (st : St)
    (hlen : s.length ≤ 254) (fd : Nat)
    (henv : env.shmOpenRes ("/" ++ s) = some fd)
    (hch : ci.children.all okCounterB = true) :
    (_openafs_add_stats env ci { classPtr := p, className := s } st).1 = 0 ∧
    (_openafs_add_stats env ci { classPtr := p, className := s } st).2.1.n_counters =
      ci.children.length ∧
    (_openafs_add_stats env ci { classPtr := p, className := s } st).2.1.labelVals.map Prod.snd =
      ci.children.map labelOfChild := by
  obtain ⟨h1, h2, h3, _, _⟩ := add_stats_spec env ci p s st hlen fd henv hch
  exact ⟨h1, h2, h3⟩

/-- C3, counterexample to the claim as stated: the Class block `k` has
exactly one `Counter` child, yet the constructed class has `n_counters =
2` (the total child count), not 1, and slot 0 does not hold the label of
the first Counter child — it stays null, while the label `cnt` lands at
the child's own index 1. -/
theorem C3_counterexample :
    addC3x.1 = 0 ∧ addC3x.2.1.n_counters = 2 ∧ ¬ addC3x.2.1.n_counters = 1 ∧
    addC3x.2.1.labelVals.map Prod.snd = [none, some "cnt"] := by decide

/-- Witness for C3 at the concrete inputs of the `k` scenario. -/
theorem C3_slot_binding_witness :
    ("k".length ≤ 254 ∧ envC3x.shmOpenRes ("/" ++ "k") = some 3 ∧
      ciC3x.children.all okCounterB = true) ∧
    ((_openafs_add_stats envC3x ciC3x { classPtr := CPtr.blk 9, className := "k" } {}).1 = 0 ∧
      (_openafs_add_stats envC3x ciC3x
        { classPtr := CPtr.blk 9, className := "k" } {}).2.1.n_counters =
        ciC3x.children.length ∧
      (_openafs_add_stats envC3x ciC3x
        { classPtr := CPtr.blk 9, className := "k" } {}).2.1.labelVals.map Prod.snd =
        ciC3x.children.map labelOfChild) :=
  ⟨⟨by decide, by decide, by decide⟩,
    C3_slot_binding envC3x ciC3x (CPtr.blk 9) "k" {} (by decide) 3 (by decide) (by decide)⟩

theorem goodCounter_ok (ch : OConfigItem) (h : goodCounterB ch = true) :
    okCounterB ch = true := by
  simp only [goodCounterB, Bool.and_eq_true] at h
  simp [okCounterB, h.2]

theorem all_good_ok (l : List OConfigItem) (h : l.all goodCounterB = true) :
    l.all okCounterB = true := by
  rw [List.all_eq_true] at h ⊢
  intro x hx
  exact goodCounter_ok x (h x hx)

theorem snd_getD (l : List (CPtr × Option String)) (i : Nat) :
    (l.getD i (CPtr.null, none)).2 = (l.map Prod.snd).getD i none := by
  induction l generalizing i with
  | nil => cases i <;> rfl
  | cons a t ih =>
    cases i with
    | zero => rfl
    | succ n => exact ih n

theorem getD_map_of_lt {α β : Type} (f : α → β) (l : List α) (i : Nat) (d : α) (e : β)
    (h : i < l.length) : (l.map f).getD i e = f (l.getD i d) := by
  induction l generalizing i with
  | nil => simp at h
  | cons a t ih =>
    cases i with
    | zero => rfl
    | succ n => exact ih n (by simpa using h)

theorem getD_mem_of_lt {α : Type} (l : List α) (i : Nat) (d : α) (h : i < l.length) :
    l.getD i d ∈ l := by
  induction l generalizing i with
  | nil => simp at h
  | cons a t ih =>
    cases i with
    | zero => exact List.mem_cons_self a t
    | succ n => exact List.mem_cons_of_mem a (ih n (by simpa using h))

theorem process_good (env : Env) (ci : OConfigItem) (st : St) (h : goodClassB env ci = true) :
    (_openafs_process_class env ci {} st).1 = 0 ∧
    _openafs_export_class (_openafs_process_class env ci {} st).2.1 =
      specClassSamples env ci := by
  simp only [goodClassB, Bool.and_eq_true] at h
  obtain ⟨⟨hkey, hvals⟩, hall⟩ := h
  rcases hv : ci.values with _ | ⟨s, tl⟩
  · rw [hv] at hvals; simp at hvals
  · cases tl with
    | cons s2 tl2 => rw [hv] at hvals; simp at hvals
    | nil =>
      rw [hv] at hvals
      simp only [Bool.and_eq_true, decide_eq_true_eq] at hvals
      obtain ⟨hlen, hmaps⟩ := hvals
      unfold envMapsB at hmaps
      cases henv : env.shmOpenRes ("/" ++ s) with
      | none => rw [henv] at hmaps; simp at hmaps
      | some fd =>
        simp only [henv] at hmaps
        cases hm : env.mmapRes (Int.ofNat fd) (ci.children.length * 4) with
        | none => simp only [hm] at hmaps; simp at hmaps
        | some view =>
          have hok := all_good_ok ci.children hall
          unfold _openafs_process_class
          rw [if_pos hkey]
          simp only [cf_util_get_string, hv, callocBlk]
          obtain ⟨h1, h2, h3, h4, h5⟩ := add_stats_spec env ci (CPtr.blk st.nextId) s
            { nextId := st.nextId + 1, trace := st.trace ++ [Ev.allocBlk st.nextId] }
            hlen fd henv hok
          refine ⟨h1, ?_⟩
          simp only [_openafs_export_class, h2, h4, h5, snd_getD, h3,
            specClassSamples, specClassView, hv, List.getD_cons_zero, henv]
          apply List.map_eq_map_iff.mpr
          intro i hi
          rw [List.mem_range] at hi
          have hmem := getD_mem_of_lt ci.children i default hi
          have hgood := List.all_eq_true.mp hall _ hmem
          simp only [goodCounterB, Bool.and_eq_true] at hgood
          rw [getD_map_of_lt labelOfChild ci.children i default none hi]
          simp only [List.getD_eq_getElem?_getD] at hgood
          simp [labelOfChild, hgood.1, labelCStr]

theorem loop_good (env : Env) (children : List OConfigItem) :
    ∀ st, (∀ ci ∈ children, goodClassB env ci = true) →
    (_openafs_config_loop env children st).1 = 0 ∧
    (_openafs_config_loop env children st).2.1.length = children.length ∧
    (_openafs_config_loop env children st).2.1.map _openafs_export_class =
      children.map (specClassSamples env) := by
  induction children with
  | nil => exact fun st _ => ⟨rfl, rfl, rfl⟩
  | cons ci rest ih =>
    intro st h
    have hci := h ci (List.mem_cons_self ci rest)
    have hrest : ∀ x ∈ rest, goodClassB env x = true :=
      fun x hx => h x (List.mem_cons_of_mem ci hx)
    obtain ⟨hp1, hp2⟩ := process_good env ci st hci
    obtain ⟨i1, i2, i3⟩ := ih (_openafs_process_class env ci {} st).2.2 hrest
    simp [_openafs_config_loop, hp1, hp2, i1, i2, i3]

/-- C2 (amended): for every registry successfully constructed from a
configuration of well-formed Class blocks in a cooperating environment,
one sampling pass emits exactly one sample per counter slot, classes in
configuration order and slots in ascending index, each sample tagged
`openafs`, named by joining the class name and the slot's label with an
underscore — truncated to the 255 characters the 256-byte export buffer
holds, which is the amendment forced by the counterexample — and carrying
the counter read from the slot as a gauge. -/
theorem C2_sampling (env : Env) (cfg : OConfigItem) (st : St)
    (h : ∀ ci ∈ cfg.children, goodClassB env ci = true) :
    (openafs_config env cfg st).1 = 0 ∧
    openafs_read (openafs_config env cfg st).2.1 =
      ((cfg.children.map (specClassSamples env)).flatten, 0) := by
  obtain ⟨h1, h2, h3⟩ := loop_good env cfg.children (callocBlk st).2 h
  constructor
  · simp [openafs_config, h1]
  · simp [openafs_config, openafs_read, h1]
    rw [List.take_of_length_le (by simp [h2]), h3]

set_option maxRecDepth 8000 in
/-- C2, counterexample to the claim as stated: with a 1-character class
name and a 300-character label, construction succeeds, but the emitted
metric name is not the full underscore-join of class name and label —
`snprintf` into the 256-byte buffer keeps only the first 255 characters.
The counter value itself is carried exactly. -/
theorem C2_counterexample :
    (openafs_config envC2x cfgC2x {}).1 = 0 ∧
    (readC2x.1.getD 0 default).type ≠ "c" ++ "_" ++ labelLongC2 ∧
    (readC2x.1.getD 0 default).type = snprintfTrunc 256 ("c" ++ "_" ++ labelLongC2) ∧
    (readC2x.1.getD 0 default).value = MetricValue.gauge 11 := by decide

/-- Witness for C2 at the `afs` scenario with segment contents `[42, 7]`:
the hypotheses hold and the pass emits `afs_hits = 42` and
`afs_misses = 7` as gauges. -/
theorem C2_sampling_witness :
    (∀ ci ∈ cfgC2w.children, goodClassB envC2w ci = true) ∧
    ((openafs_config envC2w cfgC2w {}).1 = 0 ∧
      openafs_read (openafs_config envC2w cfgC2w {}).2.1 =
        ((cfgC2w.children.map (specClassSamples envC2w)).flatten, 0)) :=
  have h : ∀ ci ∈ cfgC2w.children, goodClassB envC2w ci = true := by decide
  ⟨h, C2_sampling envC2w cfgC2w {} h⟩

theorem process_empty (env : Env) (s : String) (st : St) (hlen : s.length ≤ 254)
    (fd : Nat) (henv : env.shmOpenRes ("/" ++ s) = some fd) :
    (_openafs_process_class env ⟨"Class", [s], []⟩ {} st).1 = 0 ∧
    (_openafs_process_class env ⟨"Class", [s], []⟩ {} st).2.1.n_counters = 0 := by
  unfold _openafs_process_class
  rw [if_pos (show strcaseEq "Class" (OConfigItem.key ⟨"Class", [s], []⟩) = true by rfl)]
  simp only [cf_util_get_string, OConfigItem.values, callocBlk]
  obtain ⟨h1, h2, _, _, _⟩ := add_stats_spec env ⟨"Class", [s], []⟩ (CPtr.blk st.nextId) s
    { nextId := st.nextId + 1, trace := st.trace ++ [Ev.allocBlk st.nextId] } hlen fd henv rfl
  exact ⟨h1, h2⟩

/-- C8 (amended): the claim spoke of a Class block with zero `Counter`
children; because `n_counters` counts *all* children (see C3), the claim
only holds for a Class block with zero children altogether.  For such a
block whose segment opens, construction succeeds — whatever `mmap` does
with the zero-byte request, since the flawed null test cannot fire — the
class is recorded with `n_counters = 0`, and every sampling pass emits no
sample for it and still reports success. -/
theorem C8_empty_class (env : Env) (k : String) (v : List String) (s : String) (st : St)
    (hlen : s.length ≤ 254) (fd : Nat)
    (henv : env.shmOpenRes ("/" ++ s) = some fd) :
    (openafs_config env ⟨k, v, [⟨"Class", [s], []⟩]⟩ st).1 = 0 ∧
    ((openafs_config env ⟨k, v, [⟨"Class", [s], []⟩]⟩ st).2.1.lst.getD 0 {}).n_counters = 0 ∧
    openafs_read (openafs_config env ⟨k, v, [⟨"Class", [s], []⟩]⟩ st).2.1 = ([], 0) := by
  obtain ⟨hp1, hp2⟩ := process_empty env s
    { nextId := st.nextId + 1, trace := st.trace ++ [Ev.allocBlk st.nextId] } hlen fd henv
  simp only [openafs_config, callocBlk, OConfigItem.children, _openafs_config_loop, hp1]
  refine ⟨by simp, ?_, ?_⟩
  · simpa using hp2
  · simp [openafs_read, _openafs_export_class, hp2]

/-- C8, counterexample to the claim as stated: the Class block `c8` has
zero `Counter` children, yet construction records it with `n_counters = 1`
(the `Foo` child still occupies a slot), not 0, and a sampling pass emits
one sample for it rather than none. -/
theorem C8_counterexample :
    (openafs_config envC8x cfgC8x {}).1 = 0 ∧
    ((openafs_config envC8x cfgC8x {}).2.1.lst.getD 0 {}).n_counters = 1 ∧
    ¬ ((openafs_config envC8x cfgC8x {}).2.1.lst.getD 0 {}).n_counters = 0 ∧
    (openafs_read (openafs_config envC8x cfgC8x {}).2.1).1.length = 1 := by decide

/-- Witness for C8 at a concrete childless Class block `e`. -/
theorem C8_empty_class_witness :
    ("e".length ≤ 254 ∧ envC8w.shmOpenRes ("/" ++ "e") = some 6) ∧
    ((openafs_config envC8w ⟨"openafs", [], [⟨"Class", ["e"], []⟩]⟩ {}).1 = 0 ∧
      ((openafs_config envC8w ⟨"openafs", [], [⟨"Class", ["e"], []⟩]⟩
        {}).2.1.lst.getD 0 {}).n_counters = 0 ∧
      openafs_read (openafs_config envC8w ⟨"openafs", [], [⟨"Class", ["e"], []⟩]⟩ {}).2.1 =
        ([], 0)) :=
  ⟨⟨by decide, by decide⟩,
    C8_empty_class envC8w "openafs" [] "e" {} (by decide) 6 (by decide)⟩

theorem strcaseEq_congr_right (x a b : String) (h : strcaseEq a b = true) :
    strcaseEq x a = strcaseEq x b := by
  unfold strcaseEq
  rw [of_decide_eq_true h]

theorem strcaseEq_refl (s : String) : strcaseEq s s = true :=
  decide_eq_true rfl

theorem fill_rename (f : String → String) (hf : ∀ k, strcaseEq (f k) k = true)
    (children : List OConfigItem) : ∀ i c st,
    _openafs_fill_labels (children.map (renameKey f)) i c st =
      _openafs_fill_labels children i c st := by
  induction children with
  | nil => intro i c st; rfl
  | cons ch rest ih =>
    intro i c st
    obtain ⟨k, v, cs⟩ := ch
    simp only [List.map_cons, renameKey, _openafs_fill_labels, OConfigItem.key,
      OConfigItem.values]
    rw [strcaseEq_congr_right "Counter" (f k) k (hf k)]
    by_cases hc : strcaseEq "Counter" k
    · rw [if_pos hc, if_pos hc]
      rcases v with _ | ⟨s, tl⟩
      · simp [cf_util_get_string, OConfigItem.values]
      · cases tl with
        | nil =>
          simp only [cf_util_get_string, OConfigItem.values, callocBlk]
          exact ih (i + 1) _ _
        | cons s2 tl2 => simp [cf_util_get_string, OConfigItem.values]
    · rw [if_neg hc, if_neg hc]
      exact ih (i + 1) c st

theorem add_stats_rename (f : String → String) (hf : ∀ k, strcaseEq (f k) k = true)
    (env : Env) (k k' : String) (v v' : List String) (cs : List OConfigItem)
    (c : OpenafsClass) (st : St) :
    _openafs_add_stats env ⟨k', v', cs.map (renameKey f)⟩ c st =
      _openafs_add_stats env ⟨k, v, cs⟩ c st := by
  unfold _openafs_add_stats
  simp only [OConfigItem.children, List.length_map]
  rw [fill_rename f hf cs]

theorem process_rename (f : String → String) (hf : ∀ k, strcaseEq (f k) k = true)
    (env : Env) (k : String) (v : List String) (cs : List OConfigItem)
    (c : OpenafsClass) (st : St) :
    _openafs_process_class env ⟨f k, v, cs.map (renameKey f)⟩ c st =
      _openafs_process_class env ⟨k, v, cs⟩ c st := by
  unfold _openafs_process_class
  simp only [OConfigItem.key, OConfigItem.values,
    strcaseEq_congr_right "Class" (f k) k (hf k)]
  by_cases hc : strcaseEq "Class" k
  · rw [if_pos hc, if_pos hc]
    rcases v with _ | ⟨s, tl⟩
    · simp [cf_util_get_string, OConfigItem.values]
    · cases tl with
      | nil =>
        simp only [cf_util_get_string, OConfigItem.values, callocBlk]
        exact add_stats_rename f hf env k (f k) [s] [s] cs _ _
      | cons s2 tl2 => simp [cf_util_get_string, OConfigItem.values]
  · rw [if_neg hc, if_neg hc]

theorem loop_rename (f : String → String) (hf : ∀ k, strcaseEq (f k) k = true)
    (env : Env) (children : List OConfigItem) : ∀ st,
    _openafs_config_loop env (children.map (renameClassItem f)) st =
      _openafs_config_loop env children st := by
  induction children with
  | nil => intro st; rfl
  | cons ci rest ih =>
    intro st
    obtain ⟨k, v, cs⟩ := ci
    simp only [List.map_cons, renameClassItem, _openafs_config_loop]
    rw [process_rename f hf env k v cs {} st]
    simp only [ih, List.length_map]

/-- C10: configuration key matching is case-insensitive.  For any
key-renaming `f` that only changes capitalization (ASCII-case-equal to the
original key), running the configuration callback on the renamed tree
yields exactly the same result — status, registry and resource trace — as
on the original tree: `Class` and `Counter` are matched by `strcasecmp`,
so e.g. `class` and `COUNTER` work like the canonical capitalization. -/
theorem C10_case_insensitive_keys (f : String → String)
    (hf : ∀ k, strcaseEq (f k) k = true) (env : Env) (cfg : OConfigItem) (st : St) :
    openafs_config env (renameKeys2 f cfg) st = openafs_config env cfg st := by
  obtain ⟨k, v, children⟩ := cfg
  simp only [renameKeys2]
  unfold openafs_config
  simp only [OConfigItem.children, List.length_map]
  rw [loop_rename f hf env children]

theorem fW10_case (k : String) : strcaseEq (fW10 k) k = true := by
  unfold fW10
  by_cases h1 : k = "Class"
  · rw [if_pos h1, h1]; decide
  · rw [if_neg h1]
    by_cases h2 : k = "Counter"
    · rw [if_pos h2, h2]; decide
    · rw [if_neg h2]; exact strcaseEq_refl k

/-- Witness for C10: with `cLaSs`/`COUNTER` capitalization the
configuration callback produces the same registry as with the canonical
keys. -/
theorem C10_case_insensitive_keys_witness :
    (∀ k, strcaseEq (fW10 k) k = true) ∧
    openafs_config envC10w (renameKeys2 fW10 cfgC10w) {} =
      openafs_config envC10w cfgC10w {} :=
  ⟨fW10_case, C10_case_insensitive_keys fW10 fW10_case envC10w cfgC10w {}⟩

end Openafs
